import Mathlib

/-!
Verification of the streaming conversational session engine of
`executive_functioning_helper` (desktop renderer).

Part 1 models the Transport Consumer, the `chatStream` generator in
`src/desktop/src/renderer/api/agent.ts`.  Text is modelled as `List Char`
(the decoded character stream; `TextDecoder` with `stream: true` makes the
decoded text of a byte stream independent of chunk boundaries, so a chunk
is modelled by the characters it decodes to).

Part 2 models the Session Store, `useChatStore` in
`src/desktop/src/renderer/stores/chatStore.ts`.
-/

namespace EFH

/-- Model of JavaScript `s.split('\n')`: splits at every newline, always
returns a non-empty list; the last element is the text after the last
newline (possibly empty). -/
def splitNl : List Char → List (List Char)
  | [] => [[]]
  | c :: cs =>
    if c = '\n' then [] :: splitNl cs
    else
      match splitNl cs with
      | [] => [[c]]
      | l :: ls => (c :: l) :: ls

/-- Last element of a list of lines, `[]` when the list is empty; model of
`lines.pop() || ''`. -/
def lastD : List (List Char) → List Char
  | [] => []
  | [l] => l
  | _ :: l :: ls => lastD (l :: ls)

/-- The SSE significant-line marker, the literal `"data: "` (6 characters). -/
def dataTag : List Char := "data: ".toList

/-- The end-of-stream sentinel payload, the literal `"[DONE]"`. -/
def doneMark : List Char := "[DONE]".toList

/-- The inner `for (const line of lines)` loop of `chatStream`: processes a
batch of complete lines, collecting the yielded fragments, and reports
whether the `"[DONE]"` sentinel was reached (which `return`s from the whole
generator).  A line yields `line.slice(6)` when it starts with `"data: "`;
every other line is skipped. -/
def processLines : List (List Char) → List (List Char) × Bool
  | [] => ([], false)
  | line :: rest =>
    if dataTag.isPrefixOf line then
      let d := line.drop 6
      if d = doneMark then ([], true)
      else
        let r := processLines rest
        (d :: r.1, r.2)
    else processLines rest

/-- The outer `while (true)` read loop of `chatStream`: each chunk is
appended to the carried buffer, the buffer is split on newline, the last
(possibly incomplete) segment is retained as the new buffer
(`buffer = lines.pop() || ''`), and the complete lines are processed.
When the reader reports `done` (no chunks left), the loop breaks and any
remaining buffer is discarded. -/
def streamLoop : List (List Char) → List Char → List (List Char)
  | [], _ => []
  | chunk :: rest, buffer =>
    let parts := splitNl (buffer ++ chunk)
    let r := processLines parts.dropLast
    if r.2 then r.1 else r.1 ++ streamLoop rest (lastD parts)

/-- An HTTP response as `chatStream` observes it: a status code and an
optional body, the body being the sequence of chunks the reader delivers. -/
structure Response where
  status : Nat
  body : Option (List (List Char))

/-- Model of `fetch`'s `response.ok`: status in the range 200–299. -/
def responseOk (r : Response) : Bool := 200 ≤ r.status && r.status < 300

/-- The failures `chatStream` raises before yielding anything: the
`HTTP error! status: ...` error (carrying the status code) and the
`No response body` error (carrying nothing). -/
inductive TransportError where
  | httpStatus (status : Nat)
  | noBody
deriving DecidableEq

/-- Model of the `chatStream` generator in
`src/desktop/src/renderer/api/agent.ts`: a non-ok status fails with the
status code; an absent body fails with no status; otherwise the chunk
stream is consumed by `streamLoop` starting from an empty buffer, and the
result is the list of yielded fragments in order. -/
def chatStream (r : Response) : Except TransportError (List (List Char)) :=
  if responseOk r then
    match r.body with
    | none => .error .noBody
    | some chunks => .ok (streamLoop chunks [])
  else .error (.httpStatus r.status)

/-! Basic facts about `splitNl` and `lastD`. -/

theorem splitNl_ne_nil (s : List Char) : splitNl s ≠ [] := by
  induction s with
  | nil => simp [splitNl]
  | cons c cs ih =>
    simp only [splitNl]
    split
    · simp
    · cases h : splitNl cs with
      | nil => simp
      | cons l ls => simp

theorem splitNl_cons_nl (s : List Char) :
    splitNl ('\n' :: s) = [] :: splitNl s := by
  simp [splitNl]

theorem splitNl_cons_of_ne {c : Char} (hc : ¬ c = '\n') {s l : List Char}
    {ls : List (List Char)} (h : splitNl s = l :: ls) :
    splitNl (c :: s) = (c :: l) :: ls := by
  simp [splitNl, if_neg hc, h]

theorem splitNl_of_not_mem_nl {s : List Char} (h : '\n' ∉ s) :
    splitNl s = [s] := by
  induction s with
  | nil => rfl
  | cons c cs ih =>
    simp only [List.mem_cons, not_or] at h
    have hc : ¬ c = '\n' := fun hh => h.1 hh.symm
    exact splitNl_cons_of_ne hc (ih h.2)

theorem lastD_cons_cons (x y : List Char) (ls : List (List Char)) :
    lastD (x :: y :: ls) = lastD (y :: ls) := rfl

/-- For a non-empty list the `lastD` helper ignores a fresh head. -/
theorem lastD_cons_of_ne_nil (x : List Char) {ls : List (List Char)}
    (h : ls ≠ []) : lastD (x :: ls) = lastD ls := by
  cases ls with
  | nil => exact absurd rfl h
  | cons y ys => rfl

theorem dropLast_cons_of_ne_nil {α : Type} (x : α) {ls : List α}
    (h : ls ≠ []) : (x :: ls).dropLast = x :: ls.dropLast := by
  cases ls with
  | nil => exact absurd rfl h
  | cons y ys => rfl

theorem dropLast_append_of_ne_nil {α : Type} (x : List α) {y : List α}
    (h : y ≠ []) : (x ++ y).dropLast = x ++ y.dropLast := by
  induction x with
  | nil => rfl
  | cons a xs ih =>
    rw [List.cons_append,
      dropLast_cons_of_ne_nil a (fun hh => h (List.append_eq_nil.mp hh).2),
      ih, List.cons_append]

theorem splitNl_exists_cons (s : List Char) :
    ∃ l ls, splitNl s = l :: ls := by
  cases h : splitNl s with
  | nil => exact absurd h (splitNl_ne_nil s)
  | cons l ls => exact ⟨l, ls, rfl⟩

/-- Splitting a concatenation: the complete lines of `a` come first, and the
trailing segment of `a` is glued onto the front of the split of `b`. -/
theorem splitNl_append (a b : List Char) :
    splitNl (a ++ b) =
      (splitNl a).dropLast ++ splitNl (lastD (splitNl a) ++ b) := by
  induction a with
  | nil => simp [splitNl, lastD]
  | cons c cs ih =>
    by_cases hc : c = '\n'
    · subst hc
      have hne := splitNl_ne_nil cs
      rw [List.cons_append, splitNl_cons_nl, splitNl_cons_nl, ih,
        dropLast_cons_of_ne_nil _ hne, lastD_cons_of_ne_nil _ hne,
        List.cons_append]
    · obtain ⟨l, ls, h⟩ : ∃ l ls, splitNl cs = l :: ls := by
        cases h : splitNl cs with
        | nil => exact absurd h (splitNl_ne_nil cs)
        | cons l ls => exact ⟨l, ls, rfl⟩
      rw [h] at ih
      cases ls with
      | nil =>
        obtain ⟨m, ms, hm⟩ : ∃ m ms, splitNl (l ++ b) = m :: ms := by
          cases hm : splitNl (l ++ b) with
          | nil => exact absurd hm (splitNl_ne_nil _)
          | cons m ms => exact ⟨m, ms, rfl⟩
        simp only [lastD, List.dropLast_single, List.nil_append] at ih
        rw [List.cons_append, splitNl_cons_of_ne hc (ih.trans hm),
          splitNl_cons_of_ne hc h, List.dropLast_single, lastD,
          List.nil_append, List.cons_append, splitNl_cons_of_ne hc hm]
      | cons l2 ls2 =>
        rw [dropLast_cons_of_ne_nil _ (List.cons_ne_nil l2 ls2),
          lastD_cons_cons, List.cons_append] at ih
        rw [List.cons_append, splitNl_cons_of_ne hc ih,
          splitNl_cons_of_ne hc h,
          dropLast_cons_of_ne_nil _ (List.cons_ne_nil l2 ls2),
          lastD_cons_cons, List.cons_append]

/-- The buffer retained by the read loop never contains a newline. -/
theorem not_nl_mem_lastD_splitNl (s : List Char) :
    '\n' ∉ lastD (splitNl s) := by
  induction s with
  | nil => simp [splitNl, lastD]
  | cons c cs ih =>
    by_cases hc : c = '\n'
    · subst hc
      rw [splitNl_cons_nl, lastD_cons_of_ne_nil _ (splitNl_ne_nil cs)]
      exact ih
    · obtain ⟨l, ls, h⟩ := splitNl_exists_cons cs
      rw [h] at ih
      cases ls with
      | nil =>
        rw [splitNl_cons_of_ne hc h]
        simp only [lastD, List.mem_cons, not_or] at ih ⊢
        exact ⟨fun hh => hc hh.symm, ih⟩
      | cons l2 ls2 =>
        rw [splitNl_cons_of_ne hc h, lastD_cons_cons]
        rw [lastD_cons_cons] at ih
        exact ih

/-- Processing a concatenation of line batches: if the sentinel was hit in
the first batch the second contributes nothing, otherwise the fragment
lists concatenate. -/
theorem processLines_append (l1 l2 : List (List Char)) :
    processLines (l1 ++ l2) =
      if (processLines l1).2 then processLines l1
      else ((processLines l1).1 ++ (processLines l2).1, (processLines l2).2) := by
  induction l1 with
  | nil => simp [processLines]
  | cons line rest ih =>
    by_cases hp : dataTag.isPrefixOf line
    · by_cases hd : line.drop 6 = doneMark
      · simp [processLines, hp, hd]
      · by_cases h2 : (processLines rest).2
        · simp [processLines, hp, hd, ih, h2]
        · simp [processLines, hp, hd, ih, h2]
    · simp [processLines, hp, ih]

/-- Master characterization of the read loop: starting from a newline-free
buffer, the fragments the loop yields are exactly those obtained by
processing the complete (newline-terminated) lines of the buffer followed
by the concatenation of all chunks; the final segment after the last
newline is never processed. -/
theorem streamLoop_eq_processLines (chunks : List (List Char)) :
    ∀ buffer : List Char, '\n' ∉ buffer →
      streamLoop chunks buffer =
        (processLines (splitNl (buffer ++ chunks.flatten)).dropLast).1 := by
  induction chunks with
  | nil =>
    intro buffer hb
    rw [List.flatten_nil, List.append_nil, splitNl_of_not_mem_nl hb]
    rfl
  | cons chunk rest ih =>
    intro buffer hb
    have hsplit : splitNl (buffer ++ (chunk :: rest).flatten) =
        (splitNl (buffer ++ chunk)).dropLast ++
          splitNl (lastD (splitNl (buffer ++ chunk)) ++ rest.flatten) := by
      rw [List.flatten_cons, ← List.append_assoc, splitNl_append]
    have hdrop : (splitNl (buffer ++ (chunk :: rest).flatten)).dropLast =
        (splitNl (buffer ++ chunk)).dropLast ++
          (splitNl (lastD (splitNl (buffer ++ chunk)) ++ rest.flatten)).dropLast := by
      rw [hsplit, dropLast_append_of_ne_nil _ (splitNl_ne_nil _)]
    rw [hdrop, processLines_append]
    have hbuf := not_nl_mem_lastD_splitNl (buffer ++ chunk)
    show streamLoop (chunk :: rest) buffer = _
    simp only [streamLoop]
    by_cases h2 : (processLines (splitNl (buffer ++ chunk)).dropLast).2
    · simp [h2]
    · simp [h2, ih _ hbuf]

theorem dataTag_eq_chars : dataTag = ['d', 'a', 't', 'a', ':', ' '] := rfl

theorem drop_six_dataTag_append (x : List Char) : (dataTag ++ x).drop 6 = x := by
  rw [dataTag_eq_chars]
  rfl

/-- If the significant (`"data: "`-prefixed) lines of a batch are exactly
the encodings of `fs` followed by the sentinel frame, processing the batch
yields exactly `fs`. -/
theorem processLines_of_filter (lines : List (List Char)) :
    ∀ fs : List (List Char),
      (∀ f ∈ fs, f ≠ doneMark) →
      lines.filter (fun l => dataTag.isPrefixOf l) =
        fs.map (fun f => dataTag ++ f) ++ [dataTag ++ doneMark] →
      (processLines lines).1 = fs := by
  induction lines with
  | nil =>
    intro fs _ hfilter
    simp at hfilter
  | cons line rest ih =>
    intro fs hdone hfilter
    by_cases hp : dataTag.isPrefixOf line
    · rw [List.filter_cons_of_pos (by simpa using hp)] at hfilter
      cases fs with
      | nil =>
        simp only [List.map_nil, List.nil_append, List.cons.injEq] at hfilter
        have hd : line.drop 6 = doneMark := by
          rw [hfilter.1, drop_six_dataTag_append]
        simp [processLines, hp, hd]
      | cons f fs2 =>
        simp only [List.map_cons, List.cons_append, List.cons.injEq] at hfilter
        have hd : line.drop 6 = f := by
          rw [hfilter.1, drop_six_dataTag_append]
        have hf : f ≠ doneMark := hdone f (by simp)
        have htail := ih fs2 (fun g hg => hdone g (by simp [hg])) hfilter.2
        simp [processLines, hp, hd, hf, htail]
    · rw [List.filter_cons_of_neg (by simpa using hp)] at hfilter
      simp only [processLines, if_neg hp]
      exact ih fs hdone hfilter

/-- C1: on a 200 response whose complete lines carry `data: f1 … data: fn`
then `data: [DONE]` (with arbitrary non-`data: ` lines interleaved),
`chatStream` yields exactly `[f1, …, fn]`. -/
theorem chatStream_yields_framed_fragments
    (chunks fs : List (List Char))
    (hdone : ∀ f ∈ fs, f ≠ doneMark)
    (hframes :
      (splitNl chunks.flatten).dropLast.filter (fun l => dataTag.isPrefixOf l) =
        fs.map (fun f => dataTag ++ f) ++ [dataTag ++ doneMark]) :
    chatStream ⟨200, some chunks⟩ = .ok fs := by
  have h0 : chatStream ⟨200, some chunks⟩ = .ok (streamLoop chunks []) := rfl
  rw [h0, streamLoop_eq_processLines chunks [] (by simp), List.nil_append,
    processLines_of_filter _ fs hdone hframes]

theorem chatStream_yields_framed_fragments_witness :
    chatStream ⟨200, some ["data: Hi\nda".toList,
        "ta: there\n\ndata: [DONE]\n".toList]⟩ =
      .ok ["Hi".toList, "there".toList] :=
  chatStream_yields_framed_fragments _ _ (by decide) (by decide)

/-- C2: the fragment sequence is invariant under re-chunking — two chunk
lists with the same concatenated text produce the same `chatStream` result,
whatever the chunk boundaries. -/
theorem chatStream_rechunk_invariant (status : Nat)
    (c1 c2 : List (List Char)) (h : c1.flatten = c2.flatten) :
    chatStream ⟨status, some c1⟩ = chatStream ⟨status, some c2⟩ := by
  have hs : streamLoop c1 [] = streamLoop c2 [] := by
    rw [streamLoop_eq_processLines c1 [] (by simp),
      streamLoop_eq_processLines c2 [] (by simp), h]
  simp [chatStream, responseOk, hs]

theorem chatStream_rechunk_invariant_witness :
    chatStream ⟨200, some ["data: a\nda".toList, "ta: b\ndata: [DONE]\n".toList]⟩ =
      chatStream ⟨200, some ["data: a".toList, "\nd".toList,
        "ata: b\ndata: [DONE]\n".toList]⟩ :=
  chatStream_rechunk_invariant 200 _ _ (by decide)

/-- C8: a non-success status fails `chatStream` with an error carrying the
status code, an ok status with an absent body fails with the body-less
error, and in both cases no fragments are produced. -/
theorem chatStream_error_cases (r : Response) :
    (responseOk r = false →
      chatStream r = .error (.httpStatus r.status) ∧
        ∀ fs, chatStream r ≠ .ok fs) ∧
    (responseOk r = true → r.body = none →
      chatStream r = .error .noBody ∧ ∀ fs, chatStream r ≠ .ok fs) := by
  constructor
  · intro h
    constructor
    · simp [chatStream, h]
    · intro fs
      simp [chatStream, h]
  · intro h hb
    constructor
    · simp [chatStream, h, hb]
    · intro fs
      simp [chatStream, h, hb]

theorem chatStream_error_cases_witness :
    chatStream ⟨404, some []⟩ = .error (.httpStatus 404) ∧
      chatStream ⟨200, none⟩ = .error .noBody :=
  ⟨((chatStream_error_cases ⟨404, some []⟩).1 (by decide)).1,
   ((chatStream_error_cases ⟨200, none⟩).2 (by decide) rfl).1⟩

/-- A trailing segment with no newline never contributes to the complete
lines. -/
theorem splitNl_dropLast_append_no_nl (s : List Char) {t : List Char}
    (ht : '\n' ∉ t) :
    (splitNl (s ++ t)).dropLast = (splitNl s).dropLast := by
  rw [splitNl_append s t]
  have hfree : '\n' ∉ lastD (splitNl s) ++ t := by
    intro hmem
    rcases List.mem_append.mp hmem with h1 | h2
    · exact not_nl_mem_lastD_splitNl s h1
    · exact ht h2
  rw [splitNl_of_not_mem_nl hfree, List.dropLast_concat]

/-- C10: data still buffered when the connection ends — anything after the
last newline of the stream, even a fully formed `data: x` frame missing
only its newline — is silently discarded: appending such a final chunk
changes nothing about what `chatStream` yields. -/
theorem chatStream_discards_unterminated_tail
    (chunks : List (List Char)) (t : List Char) (ht : '\n' ∉ t) :
    chatStream ⟨200, some (chunks ++ [t])⟩ = chatStream ⟨200, some chunks⟩ := by
  have h1 : streamLoop (chunks ++ [t]) [] = streamLoop chunks [] := by
    rw [streamLoop_eq_processLines _ [] (by simp),
      streamLoop_eq_processLines _ [] (by simp),
      List.nil_append, List.nil_append, List.flatten_append,
      show ([t] : List (List Char)).flatten = t by simp,
      splitNl_dropLast_append_no_nl _ ht]
  simp [chatStream, responseOk, h1]

theorem chatStream_discards_unterminated_tail_witness :
    chatStream ⟨200, some ["data: a\n".toList, "data: b".toList]⟩ =
      chatStream ⟨200, some ["data: a\n".toList]⟩ :=
  chatStream_discards_unterminated_tail ["data: a\n".toList]
    "data: b".toList (by decide)

/-!
Part 2: the Session Store, `useChatStore` in
`src/desktop/src/renderer/stores/chatStore.ts`.

The store runs on a single event loop; an operation is modelled as a
function from the store state (plus the outcomes of the external calls it
awaits: the backend results and the values of `Date.now()` /
`new Date().toISOString()`) to the new state.  Fragments and message
contents are Lean `String`s.  `sendMessage` additionally exposes the list
of states it publishes (one `set` call each), since several claims are
about what observers can see mid-operation.
-/

/-- The `role` field of a `Message`. -/
inductive Role where
  | user
  | assistant
deriving DecidableEq, Repr

/-- The `Message` interface of `src/desktop/src/renderer/api/agent.ts`. -/
structure Msg where
  id : String
  role : Role
  content : String
  created_at : String
deriving DecidableEq, Repr

/-- The `Conversation` interface of
`src/desktop/src/renderer/api/agent.ts`. -/
structure Conversation where
  id : String
  title : String
  messages : List Msg
  created_at : String
  updated_at : String
deriving DecidableEq, Repr

/-- The state fields of `useChatStore` (`ChatState` minus its methods). -/
structure ChatState where
  conversations : List Conversation
  currentConversation : Option Conversation
  isLoadingConversations : Bool
  isLoadingMessages : Bool
  isStreaming : Bool
  streamingContent : String
  error : Option String
deriving DecidableEq, Repr

/-- The store's initial state. -/
def initialState : ChatState :=
  { conversations := []
    currentConversation := none
    isLoadingConversations := false
    isLoadingMessages := false
    isStreaming := false
    streamingContent := ""
    error := none }

/-- The provisional user `Message` synthesized by `sendMessage`:
`id: temp-${Date.now()}`. -/
def mkUserMessage (content : String) (t : Nat) (iso : String) : Msg :=
  { id := "temp-" ++ toString t
    role := .user
    content := content
    created_at := iso }

/-- The assistant `Message` synthesized on normal completion:
`id: assistant-${Date.now()}`. -/
def mkAssistantMessage (content : String) (t : Nat) (iso : String) : Msg :=
  { id := "assistant-" ++ toString t
    role := .assistant
    content := content
    created_at := iso }

/-- The optimistic-append step of `sendMessage`: append the provisional
user message to the current conversation, or create the placeholder
conversation (`id: ''`, `title: 'New Conversation'`) holding just it. -/
def appendUserMessage (st : ChatState) (m : Msg) (iso : String) : ChatState :=
  match st.currentConversation with
  | some c =>
    { st with currentConversation := some { c with messages := c.messages ++ [m] } }
  | none =>
    { st with currentConversation := some (Conversation.mk "" "New Conversation" [m] iso iso) }

/-- The `for await` body of `sendMessage`: each fragment is appended to the
accumulator `fullContent` and the accumulator is republished as
`streamingContent` — one `set` per fragment.  Returns the list of states
published (in order) together with the final state and accumulator. -/
def runFragments : ChatState → String → List String →
    List ChatState × ChatState × String
  | st, acc, [] => ([], st, acc)
  | st, acc, f :: fs =>
    let acc2 := acc ++ f
    let st2 := { st with streamingContent := acc2 }
    let r := runFragments st2 acc2 fs
    (st2 :: r.1, r.2)

/-- Second half of `fetchConversations`: the `set` performed once the
backend call settles. -/
def fetchFinish (st : ChatState) :
    Except String (List Conversation) → ChatState
  | .ok convs =>
    { st with conversations := convs, isLoadingConversations := false }
  | .error msg =>
    { st with error := some msg, isLoadingConversations := false }

/-- Model of `fetchConversations`: sets the loading flag and clears the
error, awaits the backend list (`result`), then either replaces
`conversations` or records the failure message. -/
def fetchConversations (st : ChatState)
    (result : Except String (List Conversation)) : ChatState :=
  fetchFinish { st with isLoadingConversations := true, error := none } result

/-- Model of the store's `deleteConversation`: on backend success, filter
the id out of `conversations` and clear `currentConversation` when it has
that id; on failure, only set `error`. -/
def deleteConversation (st : ChatState) (id : String)
    (result : Except String Unit) : ChatState :=
  match result with
  | .ok _ =>
    { st with
        conversations := st.conversations.filter (fun c => c.id ≠ id)
        currentConversation :=
          match st.currentConversation with
          | some c => if c.id = id then none else some c
          | none => none }
  | .error msg => { st with error := some msg }

/-- Model of `startNewConversation`. -/
def startNewConversation (st : ChatState) : ChatState :=
  { st with currentConversation := none, streamingContent := "" }

/-- Outcome of iterating `chatStream` inside `sendMessage`: either the
generator finishes normally after yielding `fragments`, or it throws after
yielding `fragments`, with (modelled) message `msg`. -/
inductive StreamOutcome where
  | success (fragments : List String)
  | failure (fragments : List String) (msg : String)
deriving DecidableEq, Repr

/-- Model of `sendMessage`, returning the list of published states (one
per `set`, in order) and the final state.  `t1`/`iso1` are the clock
values read when the provisional user message is built, `t2`/`iso2` those
read when the assistant message is built, and `fetchRes` is the backend
result of the `fetchConversations()` refresh on the success path (the
failure path performs no refresh). -/
def sendMessageCore (st : ChatState) (content : String)
    (t1 : Nat) (iso1 : String) (outcome : StreamOutcome)
    (t2 : Nat) (iso2 : String)
    (fetchRes : Except String (List Conversation)) :
    List ChatState × ChatState :=
  let st1 := appendUserMessage st (mkUserMessage content t1 iso1) iso1
  let st2 := { st1 with isStreaming := true, streamingContent := "", error := none }
  match outcome with
  | .failure fs msg =>
    let r := runFragments st2 "" fs
    let fin := { r.2.1 with
        error := some msg, isStreaming := false, streamingContent := "" }
    (st1 :: st2 :: r.1 ++ [fin], fin)
  | .success fs =>
    let r := runFragments st2 "" fs
    let st3 := r.2.1
    let st4 :=
      match st3.currentConversation with
      | some c =>
        { st3 with
            currentConversation := some
              { c with messages :=
                  c.messages ++ [mkAssistantMessage r.2.2 t2 iso2] }
            isStreaming := false
            streamingContent := "" }
      | none => st3
    let st5 := { st4 with isLoadingConversations := true, error := none }
    let fin := fetchFinish st5 fetchRes
    (st1 :: st2 :: r.1 ++ [st4, st5, fin], fin)

/-- The final state `sendMessage` leaves behind. -/
def sendMessage (st : ChatState) (content : String)
    (t1 : Nat) (iso1 : String) (outcome : StreamOutcome)
    (t2 : Nat) (iso2 : String)
    (fetchRes : Except String (List Conversation)) : ChatState :=
  (sendMessageCore st content t1 iso1 outcome t2 iso2 fetchRes).2

/-- The states `sendMessage` publishes, in order. -/
def sendMessageStates (st : ChatState) (content : String)
    (t1 : Nat) (iso1 : String) (outcome : StreamOutcome)
    (t2 : Nat) (iso2 : String)
    (fetchRes : Except String (List Conversation)) : List ChatState :=
  (sendMessageCore st content t1 iso1 outcome t2 iso2 fetchRes).1

/-- The messages of the current conversation ([] when there is none). -/
def currentMessages (st : ChatState) : List Msg :=
  match st.currentConversation with
  | some c => c.messages
  | none => []

/-- Right-fold concatenation of a fragment list, used to state what the
accumulator must equal. -/
def strJoin : List String → String
  | [] => ""
  | s :: l => s ++ strJoin l

/-! Helper facts about the Session Store operations. -/

theorem appendUserMessage_fields (st : ChatState) (m : Msg) (iso : String) :
    (appendUserMessage st m iso).streamingContent = st.streamingContent ∧
    (appendUserMessage st m iso).isStreaming = st.isStreaming ∧
    (appendUserMessage st m iso).error = st.error ∧
    (appendUserMessage st m iso).conversations = st.conversations ∧
    (appendUserMessage st m iso).isLoadingConversations = st.isLoadingConversations ∧
    (appendUserMessage st m iso).isLoadingMessages = st.isLoadingMessages := by
  unfold appendUserMessage
  split <;> simp

theorem appendUserMessage_currentMessages (st : ChatState) (m : Msg)
    (iso : String) :
    currentMessages (appendUserMessage st m iso) = currentMessages st ++ [m] := by
  unfold appendUserMessage currentMessages
  cases h : st.currentConversation with
  | some c => simp [h]
  | none => simp [h]

theorem appendUserMessage_cc_isSome (st : ChatState) (m : Msg) (iso : String) :
    ∃ c, (appendUserMessage st m iso).currentConversation = some c := by
  unfold appendUserMessage
  cases h : st.currentConversation with
  | some c => exact ⟨_, rfl⟩
  | none => exact ⟨_, rfl⟩

theorem runFragments_final_eq (fs : List String) :
    ∀ (st : ChatState) (acc : String),
      (runFragments st acc fs).2.1 =
        { st with streamingContent := (runFragments st acc fs).2.1.streamingContent } := by
  induction fs with
  | nil => intro st acc; rfl
  | cons f fs ih => intro st acc; exact ih _ _

theorem runFragments_currentConversation (fs : List String)
    (st : ChatState) (acc : String) :
    (runFragments st acc fs).2.1.currentConversation = st.currentConversation := by
  conv_lhs => rw [runFragments_final_eq fs st acc]

theorem runFragments_acc_eq (fs : List String) :
    ∀ (st : ChatState) (acc : String),
      (runFragments st acc fs).2.2 = acc ++ strJoin fs := by
  induction fs with
  | nil => intro st acc; simp [runFragments, strJoin]
  | cons f fs ih =>
    intro st acc
    show (runFragments _ (acc ++ f) fs).2.2 = _
    rw [ih, strJoin, ← String.append_assoc]

theorem runFragments_states_mem (fs : List String) :
    ∀ (st : ChatState) (acc : String) (s : ChatState),
      s ∈ (runFragments st acc fs).1 →
      s = { st with streamingContent := s.streamingContent } := by
  induction fs with
  | nil => intro st acc s h; simp [runFragments] at h
  | cons f fs ih =>
    intro st acc s h
    simp only [runFragments, List.mem_cons] at h
    rcases h with h | h
    · subst h; rfl
    · have h2 := ih _ _ s h
      exact h2

theorem runFragments_states_sc (fs : List String) :
    ∀ (st : ChatState) (acc : String),
      (runFragments st acc fs).1.map (fun s => s.streamingContent) =
        (List.range fs.length).map (fun k => acc ++ strJoin (fs.take (k + 1))) := by
  induction fs with
  | nil => intro st acc; simp [runFragments]
  | cons f fs ih =>
    intro st acc
    simp only [runFragments, List.map_cons, List.length_cons,
      List.range_succ_eq_map, List.map_map]
    rw [ih]
    congr 1
    · simp [List.take_succ_cons, strJoin]
    · apply List.map_congr_left
      intro k _
      simp [Function.comp, Nat.succ_eq_add_one, List.take_succ_cons, strJoin,
        String.append_assoc]

theorem fetchFinish_fields (st : ChatState)
    (res : Except String (List Conversation)) :
    (fetchFinish st res).currentConversation = st.currentConversation ∧
    (fetchFinish st res).isStreaming = st.isStreaming ∧
    (fetchFinish st res).streamingContent = st.streamingContent ∧
    (fetchFinish st res).isLoadingMessages = st.isLoadingMessages := by
  cases res <;> simp [fetchFinish]

/-- Closed form of the failure path of `sendMessage`: relative to the state
after the optimistic append, only `error`, `isStreaming` and
`streamingContent` change. -/
theorem sendMessage_failure_eq (st : ChatState) (content : String)
    (t1 : Nat) (iso1 : String) (fs : List String) (msg : String)
    (t2 : Nat) (iso2 : String) (fetchRes : Except String (List Conversation)) :
    sendMessage st content t1 iso1 (.failure fs msg) t2 iso2 fetchRes =
      { appendUserMessage st (mkUserMessage content t1 iso1) iso1 with
          isStreaming := false, streamingContent := "", error := some msg } := by
  simp only [sendMessage, sendMessageCore]
  rw [runFragments_final_eq]

/-- Closed form of the success path of `sendMessage`: the assistant message
holding the whole accumulated text is appended to the conversation produced
by the optimistic append, streaming state is reset, and the directory
refresh runs last. -/
theorem sendMessage_success_eq (st : ChatState) (content : String)
    (t1 : Nat) (iso1 : String) (fs : List String)
    (t2 : Nat) (iso2 : String) (fetchRes : Except String (List Conversation)) :
    ∃ c, (appendUserMessage st (mkUserMessage content t1 iso1) iso1).currentConversation = some c ∧
      sendMessage st content t1 iso1 (.success fs) t2 iso2 fetchRes =
        fetchFinish
          { appendUserMessage st (mkUserMessage content t1 iso1) iso1 with
              currentConversation :=
                some { c with messages := c.messages ++
                  [mkAssistantMessage (strJoin fs) t2 iso2] }
              isStreaming := false
              streamingContent := ""
              isLoadingConversations := true
              error := none }
          fetchRes := by
  obtain ⟨c, hc⟩ :=
    appendUserMessage_cc_isSome st (mkUserMessage content t1 iso1) iso1
  refine ⟨c, hc, ?_⟩
  simp only [sendMessage, sendMessageCore]
  rw [runFragments_final_eq, runFragments_acc_eq]
  simp only [hc]
  rw [show ("" ++ strJoin fs) = strJoin fs from String.empty_append _]

theorem currentMessages_congr {s1 s2 : ChatState}
    (h : s1.currentConversation = s2.currentConversation) :
    currentMessages s1 = currentMessages s2 := by
  unfold currentMessages
  rw [h]

/-- C9: a failed `fetchConversations` records the failure message and
clears the loading flag, while leaving every other field — in particular
the stale `conversations` list — exactly as it was. -/
theorem fetchConversations_failure_frame (st : ChatState) (msg : String) :
    (fetchConversations st (.error msg)).error = some msg ∧
    (fetchConversations st (.error msg)).error ≠ none ∧
    (fetchConversations st (.error msg)).isLoadingConversations = false ∧
    (fetchConversations st (.error msg)).conversations = st.conversations ∧
    (fetchConversations st (.error msg)).currentConversation =
      st.currentConversation ∧
    (fetchConversations st (.error msg)).isLoadingMessages =
      st.isLoadingMessages ∧
    (fetchConversations st (.error msg)).isStreaming = st.isStreaming ∧
    (fetchConversations st (.error msg)).streamingContent =
      st.streamingContent := by
  simp [fetchConversations, fetchFinish]

/-- C7: a successful delete removes exactly the conversations carrying the
given id from the list, clears `currentConversation` precisely when its id
matches, and leaves any other current conversation alone; a failed delete
only sets `error`, every other field unchanged. -/
theorem deleteConversation_spec (st : ChatState) (id : String) :
    (∀ c : Conversation,
      c ∈ (deleteConversation st id (.ok ())).conversations ↔
        c ∈ st.conversations ∧ c.id ≠ id) ∧
    (∀ c, st.currentConversation = some c →
      (deleteConversation st id (.ok ())).currentConversation =
        if c.id = id then none else some c) ∧
    (st.currentConversation = none →
      (deleteConversation st id (.ok ())).currentConversation = none) ∧
    (∀ msg, deleteConversation st id (.error msg) =
      { st with error := some msg }) := by
  refine ⟨?_, ?_, ?_, ?_⟩
  · intro c
    simp [deleteConversation, List.mem_filter]
  · intro c hc
    simp [deleteConversation, hc]
  · intro hc
    simp [deleteConversation, hc]
  · intro msg
    rfl

/-- Concrete conversation used by witnesses. -/
def sampleConv (i : String) : Conversation :=
  { id := i, title := "T", messages := [], created_at := "", updated_at := "" }

/-- Concrete store state used by witnesses: two conversations, the first
one selected. -/
def sampleState : ChatState :=
  { initialState with
      conversations := [sampleConv "c1", sampleConv "c2"]
      currentConversation := some (sampleConv "c1") }

theorem deleteConversation_spec_witness :
    (deleteConversation sampleState "c1" (.ok ())).currentConversation =
      if (sampleConv "c1").id = "c1" then none else some (sampleConv "c1") :=
  (deleteConversation_spec sampleState "c1").2.1 (sampleConv "c1") rfl

/-- C5: when the transport fails mid-send (after any number of fragments,
including zero), the optimistic user message survives, no assistant
message is added, streaming state is reset and the error is recorded. -/
theorem sendMessage_failure_keeps_user_message (st : ChatState)
    (content : String) (t1 : Nat) (iso1 : String) (fs : List String)
    (msg : String) (t2 : Nat) (iso2 : String)
    (fetchRes : Except String (List Conversation)) :
    currentMessages
        (sendMessage st content t1 iso1 (.failure fs msg) t2 iso2 fetchRes) =
      currentMessages st ++ [mkUserMessage content t1 iso1] ∧
    (∀ m ∈ currentMessages
        (sendMessage st content t1 iso1 (.failure fs msg) t2 iso2 fetchRes),
      m.role = .assistant → m ∈ currentMessages st) ∧
    (sendMessage st content t1 iso1 (.failure fs msg) t2 iso2 fetchRes).isStreaming
      = false ∧
    (sendMessage st content t1 iso1 (.failure fs msg) t2 iso2 fetchRes).streamingContent
      = "" ∧
    (sendMessage st content t1 iso1 (.failure fs msg) t2 iso2 fetchRes).error
      = some msg ∧
    (sendMessage st content t1 iso1 (.failure fs msg) t2 iso2 fetchRes).error
      ≠ none := by
  rw [sendMessage_failure_eq]
  have hmsgs : currentMessages
      { appendUserMessage st (mkUserMessage content t1 iso1) iso1 with
          isStreaming := false, streamingContent := "", error := some msg } =
      currentMessages st ++ [mkUserMessage content t1 iso1] :=
    (currentMessages_congr rfl).trans
      (appendUserMessage_currentMessages st (mkUserMessage content t1 iso1) iso1)
  refine ⟨hmsgs, ?_, rfl, rfl, rfl, by simp⟩
  intro m hm hrole
  rw [hmsgs] at hm
  rcases List.mem_append.mp hm with h | h
  · exact h
  · rw [List.mem_singleton.mp h] at hrole
    simp [mkUserMessage] at hrole

theorem fetchFinish_cc (st : ChatState)
    (res : Except String (List Conversation)) :
    (fetchFinish st res).currentConversation = st.currentConversation :=
  (fetchFinish_fields st res).1

theorem fetchFinish_isStreaming (st : ChatState)
    (res : Except String (List Conversation)) :
    (fetchFinish st res).isStreaming = st.isStreaming :=
  (fetchFinish_fields st res).2.1

theorem fetchFinish_sc (st : ChatState)
    (res : Except String (List Conversation)) :
    (fetchFinish st res).streamingContent = st.streamingContent :=
  (fetchFinish_fields st res).2.2.1

/-- C6: on the success path, `sendMessage` publishes one state per
fragment, the k-th published `streamingContent` being exactly the
concatenation of the first k fragments (with the initial clear before the
first fragment and the resets after completion around them), and the
assistant message appended on completion carries role `assistant` and
content exactly the concatenation of all fragments. -/
theorem sendMessage_publishes_fragments_and_concatenation (st : ChatState)
    (content : String) (t1 : Nat) (iso1 : String) (fs : List String)
    (t2 : Nat) (iso2 : String) (fetchRes : Except String (List Conversation)) :
    (sendMessageStates st content t1 iso1 (.success fs) t2 iso2 fetchRes).map
        (fun s => s.streamingContent) =
      st.streamingContent :: "" ::
        ((List.range fs.length).map (fun k => strJoin (fs.take (k + 1))) ++
          ["", "", ""]) ∧
    ∃ m, currentMessages
          (sendMessage st content t1 iso1 (.success fs) t2 iso2 fetchRes) =
        currentMessages st ++ [mkUserMessage content t1 iso1, m] ∧
      m.role = .assistant ∧ m.content = strJoin fs := by
  obtain ⟨c, hc, heq⟩ := sendMessage_success_eq st content t1 iso1 fs t2 iso2 fetchRes
  constructor
  · simp only [sendMessageStates, sendMessageCore]
    rw [runFragments_final_eq]
    simp only [hc]
    simp only [List.map_cons, List.map_append, List.map_nil]
    rw [(appendUserMessage_fields st (mkUserMessage content t1 iso1) iso1).1,
      runFragments_states_sc]
    simp [String.empty_append, fetchFinish_sc]
  · refine ⟨mkAssistantMessage (strJoin fs) t2 iso2, ?_, rfl, rfl⟩
    rw [heq]
    have h1 : currentMessages st ++ [mkUserMessage content t1 iso1] = c.messages := by
      have h3 := appendUserMessage_currentMessages st (mkUserMessage content t1 iso1) iso1
      unfold currentMessages at h3
      rw [hc] at h3
      exact h3.symm
    rw [currentMessages_congr (fetchFinish_cc _ _)]
    simp only [currentMessages]
    rw [← h1, List.append_assoc]
    rfl

/-- C3: whatever the outcome, once `sendMessage` reaches its terminal
state both `streamingContent` and `isStreaming` are reset, and at every
state it publishes along the way `streamingContent` is non-empty only
while `isStreaming` is true (given the invariant held on entry). -/
theorem sendMessage_terminal_resets_streaming (st : ChatState)
    (content : String) (t1 : Nat) (iso1 : String) (outcome : StreamOutcome)
    (t2 : Nat) (iso2 : String) (fetchRes : Except String (List Conversation))
    (hinv : st.streamingContent ≠ "" → st.isStreaming = true) :
    (sendMessage st content t1 iso1 outcome t2 iso2 fetchRes).streamingContent
      = "" ∧
    (sendMessage st content t1 iso1 outcome t2 iso2 fetchRes).isStreaming
      = false ∧
    ∀ s ∈ sendMessageStates st content t1 iso1 outcome t2 iso2 fetchRes,
      s.streamingContent ≠ "" → s.isStreaming = true := by
  cases outcome with
  | failure fs msg =>
    refine ⟨by rw [sendMessage_failure_eq], by rw [sendMessage_failure_eq], ?_⟩
    intro s hs
    simp only [sendMessageStates, sendMessageCore, List.mem_cons,
      List.mem_append, List.mem_singleton, List.not_mem_nil, or_false] at hs
    rcases hs with (h | h | h) | h
    · subst h
      intro hne
      rw [(appendUserMessage_fields st (mkUserMessage content t1 iso1) iso1).2.1]
      apply hinv
      rw [(appendUserMessage_fields st (mkUserMessage content t1 iso1) iso1).1] at hne
      exact hne
    · subst h
      intro hne
      exact absurd rfl hne
    · have h2 := runFragments_states_mem fs _ _ s h
      intro _
      rw [h2]
    · subst h
      intro hne
      exact absurd rfl hne
  | success fs =>
    obtain ⟨c, hc, heq⟩ :=
      sendMessage_success_eq st content t1 iso1 fs t2 iso2 fetchRes
    refine ⟨by rw [heq, fetchFinish_sc], by rw [heq, fetchFinish_isStreaming], ?_⟩
    intro s hs
    simp only [sendMessageStates, sendMessageCore] at hs
    rw [runFragments_final_eq] at hs
    simp only [hc] at hs
    simp only [List.mem_cons, List.mem_append, List.mem_singleton,
      List.not_mem_nil, or_false] at hs
    rcases hs with (h | h | h) | (h | h | h)
    · subst h
      intro hne
      rw [(appendUserMessage_fields st (mkUserMessage content t1 iso1) iso1).2.1]
      apply hinv
      rw [(appendUserMessage_fields st (mkUserMessage content t1 iso1) iso1).1] at hne
      exact hne
    · subst h
      intro hne
      exact absurd rfl hne
    · have h2 := runFragments_states_mem fs _ _ s h
      intro _
      rw [h2]
    · subst h
      intro hne
      exact absurd rfl hne
    · subst h
      intro hne
      exact absurd rfl hne
    · subst h
      intro hne
      rw [fetchFinish_sc] at hne
      exact absurd rfl hne

theorem sendMessage_terminal_resets_streaming_witness :
    (sendMessage initialState "hello" 1 "t" (.success ["Hi", "there", "!"])
        2 "t2" (.ok [])).streamingContent = "" ∧
    (sendMessage initialState "hello" 1 "t" (.success ["Hi", "there", "!"])
        2 "t2" (.ok [])).isStreaming = false :=
  (fun h => ⟨h.1, h.2.1⟩)
    (sendMessage_terminal_resets_streaming initialState "hello" 1 "t"
      (.success ["Hi", "there", "!"]) 2 "t2" (.ok [])
      (fun hh => absurd rfl hh))

/-- Result of a first `sendMessage` at tick 100 failing on the transport:
the conversation holds one provisional user message with id `temp-100`. -/
def firstSend : ChatState :=
  sendMessage initialState "hi" 100 "t0" (.failure [] "network error")
    0 "" (.error "")

/-- A second `sendMessage` issued within the same `Date.now()` tick. -/
def secondSendSameTick : ChatState :=
  sendMessage firstSend "again" 100 "t0" (.failure [] "network error")
    0 "" (.error "")

/-- C4 counterexample: two `sendMessage` calls in the same millisecond
derive the same provisional id `temp-100`, so the conversation ends up
with two messages carrying one id — the no-duplicate-ids claim fails on
the code, exactly as the temp-id scheme note in the spec warns. -/
theorem sendMessage_same_tick_duplicate_ids :
    (currentMessages secondSendSameTick).map (fun m => m.id) =
      ["temp-100", "temp-100"] ∧
    ¬ ((currentMessages secondSendSameTick).map (fun m => m.id)).Nodup := by
  decide

/-- C4 (amended): `sendMessage` preserves the no-duplicate-ids invariant of
the current conversation whenever the locally derived ids are fresh — the
tick-derived `temp-` and `assistant-` ids do not occur among the existing
message ids and differ from each other.  (Without freshness the invariant
fails: two sends in one tick collide, as the counterexample shows.) -/
theorem sendMessage_nodup_ids_of_fresh (st : ChatState) (content : String)
    (t1 : Nat) (iso1 : String) (outcome : StreamOutcome) (t2 : Nat)
    (iso2 : String) (fetchRes : Except String (List Conversation))
    (h0 : ((currentMessages st).map (fun m => m.id)).Nodup)
    (h1 : ("temp-" ++ toString t1) ∉ (currentMessages st).map (fun m => m.id))
    (h2 : ("assistant-" ++ toString t2) ∉
      (currentMessages st).map (fun m => m.id))
    (h3 : ("temp-" ++ toString t1 : String) ≠ "assistant-" ++ toString t2) :
    ((currentMessages
        (sendMessage st content t1 iso1 outcome t2 iso2 fetchRes)).map
      (fun m => m.id)).Nodup := by
  cases outcome with
  | failure fs msg =>
    have hmm : currentMessages
        { appendUserMessage st (mkUserMessage content t1 iso1) iso1 with
            isStreaming := false, streamingContent := "",
            error := some msg } =
        currentMessages st ++ [mkUserMessage content t1 iso1] :=
      (currentMessages_congr rfl).trans
        (appendUserMessage_currentMessages st
          (mkUserMessage content t1 iso1) iso1)
    rw [sendMessage_failure_eq, hmm]
    simp [List.nodup_append, mkUserMessage, h0, h1]
  | success fs =>
    obtain ⟨c, hc, heq⟩ :=
      sendMessage_success_eq st content t1 iso1 fs t2 iso2 fetchRes
    rw [heq, currentMessages_congr (fetchFinish_cc _ _)]
    simp only [currentMessages]
    have hcm : c.messages =
        currentMessages st ++ [mkUserMessage content t1 iso1] := by
      have h4 := appendUserMessage_currentMessages st
        (mkUserMessage content t1 iso1) iso1
      unfold currentMessages at h4
      rw [hc] at h4
      exact h4
    rw [hcm]
    simp [List.nodup_append, mkUserMessage, mkAssistantMessage,
      h0, h1, h2, h3, Ne.symm h3]

theorem sendMessage_nodup_ids_of_fresh_witness :
    ((currentMessages (sendMessage firstSend "more" 101 "t1"
        (.success ["Hi", "!"]) 102 "t2" (.ok []))).map
      (fun m => m.id)).Nodup :=
  sendMessage_nodup_ids_of_fresh firstSend "more" 101 "t1"
    (.success ["Hi", "!"]) 102 "t2" (.ok [])
    (by decide) (by decide) (by decide) (by decide)

theorem sendMessage_failure_keeps_user_message_witness :
    currentMessages (sendMessage sampleState "hi" 7 "t"
        (.failure [] "boom") 0 "" (.error "")) =
      currentMessages sampleState ++ [mkUserMessage "hi" 7 "t"] ∧
    (sendMessage sampleState "hi" 7 "t"
        (.failure [] "boom") 0 "" (.error "")).isStreaming = false ∧
    (sendMessage sampleState "hi" 7 "t"
        (.failure [] "boom") 0 "" (.error "")).error = some "boom" :=
  (fun h => ⟨h.1, h.2.2.1, h.2.2.2.2.1⟩)
    (sendMessage_failure_keeps_user_message sampleState "hi" 7 "t" []
      "boom" 0 "" (.error ""))

theorem sendMessage_publishes_fragments_witness :
    (sendMessageStates initialState "Hello" 1 "t"
        (.success ["Hi", "there", "!"]) 2 "t2" (.ok [])).map
      (fun s => s.streamingContent) =
    initialState.streamingContent :: "" ::
      ((List.range (["Hi", "there", "!"] : List String).length).map
        (fun k => strJoin ((["Hi", "there", "!"] : List String).take (k + 1)))
        ++ ["", "", ""]) :=
  (sendMessage_publishes_fragments_and_concatenation initialState "Hello"
    1 "t" ["Hi", "there", "!"] 2 "t2" (.ok [])).1

theorem fetchConversations_failure_frame_witness :
    (fetchConversations sampleState (.error "boom")).error = some "boom" ∧
    (fetchConversations sampleState (.error "boom")).conversations =
      sampleState.conversations :=
  (fun h => ⟨h.1, h.2.2.2.1⟩)
    (fetchConversations_failure_frame sampleState "boom")
